import Mathlib

/-!
Verification of the DSP core of a modular-synthesizer emulation.

Each namespace shallowly embeds one AudioWorklet processor of the
repository.  Machine floating-point arithmetic is modelled with exact
rationals (`ℚ`) where the source only uses field operations, floors and
comparisons, and with reals (`ℝ`) where the source uses transcendental
functions (`Math.sin`, `Math.exp`, `Math.tanh`, `Math.pow`).
-/

namespace Quantizer

/-- Note mask: 12 booleans for pitch classes C through B
(`this.noteMask` of `quantizer-processor.js`). -/
abbrev NoteMask := Fin 12 → Bool

/-- Chromatic default mask: all 12 pitch classes allowed
(`new Array(12).fill(true)`). -/
def chromaticMask : NoteMask := fun _ => true

/-- Array lookup `this.noteMask[idx]`; every index reaching it in the
source is already reduced mod 12, so the extra `% 12` here is inert. -/
def mget (mask : NoteMask) (n : ℕ) : Bool :=
  mask ⟨n % 12, Nat.mod_lt _ (by norm_num)⟩

/-- Distances 1 .. 11 walked by the outward spiral
(`for (let distance = 1; distance < 12; distance++)`). -/
def distances : List ℕ := [1, 2, 3, 4, 5, 6, 7, 8, 9, 10, 11]

/-- Outward spiral of `findNearestAllowedNote`: at each distance first the
upward candidate is tested, then the downward one; on a tie both exist and
the fractional part of the semitone position breaks the tie
(`frac >= 0.5 ? upIdx : downIdx`).  Falls back to 0 when the list of
distances is exhausted. -/
def searchFrom (mask : NoteMask) (idx : ℕ) (frac : ℚ) : List ℕ → ℕ
  | [] => 0
  | d :: ds =>
    let up := (idx + d) % 12
    let down := (idx + 12 - d) % 12
    if mget mask up then
      if mget mask down then (if 1 / 2 ≤ frac then up else down) else up
    else if mget mask down then down
    else searchFrom mask idx frac ds

/-- Common body of both variants of `findNearestAllowedNote`: if the
initial pitch class `idx` is allowed take it, otherwise spiral outward. -/
def findCore (mask : NoteMask) (idx : ℕ) (frac : ℚ) : ℕ :=
  if mget mask idx then idx else searchFrom mask idx frac distances

/-- Source `findNearestAllowedNote` of `quantizer-processor.js`: the
initial index is `Math.floor(semitonesInOctave) % 12` with `+ 12` on a
negative result, i.e. the euclidean remainder of the floor. -/
def findNearestAllowedNote (mask : NoteMask) (s : ℚ) : ℕ :=
  findCore mask (⌊s⌋ % 12).toNat (s - ⌊s⌋)

/-- Source `quantizeVoltage` of `quantizer-processor.js`: split
`volts·12` into octave and semitone position, snap the position with
`findNearestAllowedNote`, and reassemble. -/
def quantizeVoltage (mask : NoteMask) (voltsIn : ℚ) : ℚ :=
  let noteFloat := voltsIn * 12
  let octave : ℤ := ⌊noteFloat / 12⌋
  let semitonesInOctave := noteFloat - (octave : ℚ) * 12
  let snappedIdx := findNearestAllowedNote mask semitonesInOctave
  ((octave : ℚ) * 12 + (snappedIdx : ℚ)) / 12

end Quantizer

namespace QuantizerV2

open Quantizer (NoteMask mget findCore searchFrom distances)

/-- Variant `findNearestAllowedNote` of the second quantizer source file:
the initial index is `Math.round(semitonesInOctave)` wrapped into 0..11 by
repeated ±12, i.e. the euclidean remainder of the rounded value. -/
def findNearestAllowedNote (mask : NoteMask) (s : ℚ) : ℕ :=
  findCore mask (round s % 12).toNat (s - ⌊s⌋)

/-- Variant `quantizeVoltage` with its negative-octave adjustment branch;
the branch recurses, so it is embedded with explicit fuel.  In exact
arithmetic `semitonesInOctave` is never negative, so the branch is dead
and any positive fuel gives the source behaviour. -/
def quantizeVoltageAux (mask : NoteMask) : ℕ → ℚ → ℚ
  | 0, _ => 0
  | fuel + 1, voltsIn =>
    let noteFloat := voltsIn * 12
    let octave : ℤ := ⌊noteFloat / 12⌋
    let semitonesInOctave := noteFloat - (octave : ℚ) * 12
    if semitonesInOctave < 0 then
      quantizeVoltageAux mask fuel (voltsIn + ((octave.natAbs : ℚ) + 1))
    else
      let snappedIdx := findNearestAllowedNote mask semitonesInOctave
      ((octave : ℚ) * 12 + (snappedIdx : ℚ)) / 12

/-- Variant `quantizeVoltage` of the second quantizer source file. -/
def quantizeVoltage (mask : NoteMask) (v : ℚ) : ℚ :=
  quantizeVoltageAux mask 1 v

end QuantizerV2

namespace JustFriends

/-- Source `getIntoneRatio` of `just-friends-processor.js`: frequency
multiplier for slope `index` (1 = IDENTITY).  Near noon (within 0.001)
all slopes are equal; clockwise scales up along the overtone series,
counterclockwise down along the undertone series. -/
def getIntoneRatio (index : ℕ) (intoneValue : ℚ) : ℚ :=
  if |intoneValue - 1 / 2| < 1 / 1000 then 1
  else if intoneValue > 1 / 2 then
    let amount := (intoneValue - 1 / 2) * 2
    1 + ((index : ℚ) - 1) * amount
  else
    let amount := (1 / 2 - intoneValue) * 2
    1 / (1 + ((index : ℚ) - 1) * amount)

/-- Source `applyCurve` of `just-friends-processor.js`: CURVE waveshaping
of a linear slope value; linear at noon, power-law towards exponential or
logarithmic, with full sine and full square at the extremes. -/
noncomputable def applyCurve (linearValue curve : ℝ) : ℝ :=
  if |curve - 1 / 2| < 1 / 1000 then linearValue
  else if curve > 1 / 2 then
    let amount := (curve - 1 / 2) * 2
    if amount > 0.99 then (Real.sin ((linearValue - 1 / 2) * Real.pi) + 1) * 0.5
    else linearValue ^ ((1 : ℝ) / (1 + amount * 3))
  else
    let amount := (1 / 2 - curve) * 2
    if amount > 0.99 then (if linearValue > 1 / 2 then 1 else 0)
    else linearValue ^ ((1 : ℝ) + amount * 3)

/-- Envelope stage of one slope channel (`slope.state` strings of the
source, as a closed variant type). -/
inductive SlopeState
  | idle
  | rising
  | falling
  | sustaining
deriving DecidableEq

/-- Source `handleTrigger` of `just-friends-processor.js`, acting on the
`(state, phase)` pair of one slope.  Mode 2 = cycle (retrigger resets
phase), mode 0 = transient (start attack-release only from idle), mode 1 =
sustain (gate drives rising / falling).  In the sustain branch the source
checks `state === 'idle'` only after already assigning `'rising'`, so the
phase reset there is dead code; the embedding reproduces that. -/
def handleTrigger (mode : ℕ) (gateHigh : Bool) (state : SlopeState) (phase : ℝ) :
    SlopeState × ℝ :=
  if mode = 2 then
    if !gateHigh then (state, phase) else (state, 0)
  else if mode = 0 then
    if !gateHigh then (state, phase)
    else
      match state with
      | .idle => (.rising, 0)
      | s => (s, phase)
  else if mode = 1 then
    if gateHigh then
      match state with
      | .idle => (.rising, phase)
      | .falling => (.rising, phase)
      | s => (s, phase)
    else
      match state with
      | .rising => (.falling, phase)
      | .sustaining => (.falling, phase)
      | s => (s, phase)
  else (state, phase)

end JustFriends

namespace JustFriendsV2

/-- Variant `calculateIntoneRatio` of the second slope-generator source
file: channel 1 returns early, others interpolate linearly to `index` at
the overtone extreme and to `1/index` at the undertone extreme. -/
def calculateIntoneRatio (index : ℕ) (intone : ℚ) : ℚ :=
  if index = 1 then 1
  else
    let intoneAmount := (intone - 1 / 2) * 2
    if 0 ≤ intoneAmount then 1 + intoneAmount * ((index : ℚ) - 1)
    else 1 / (1 + (-intoneAmount) * ((index : ℚ) - 1))

/-- Variant `applyCurve` of the second slope-generator source file. -/
noncomputable def applyCurve (phase curve : ℝ) : ℝ :=
  if curve < 1 / 2 then
    let sharpness := (1 / 2 - curve) * 2
    if sharpness > 0.99 then (if phase > 0.001 then 1 else 0)
    else phase ^ ((1 : ℝ) - sharpness * 0.9)
  else
    let smoothness := (curve - 1 / 2) * 2
    if smoothness > 0.99 then (Real.sin ((phase - 1 / 2) * Real.pi * 2) + 1) / 2
    else phase ^ ((1 : ℝ) + smoothness * 2)

/-- Per-channel slope record of the second slope-generator source file,
restricted to the fields the transient-mode branch of `processSlope`
reads or writes (`value` is written only after that branch, from the
clamped phase, and `index` never changes). -/
structure Slope where
  phase : ℝ
  active : Bool
  rising : Bool
  prevTrigger : Bool

/-- Trigger handling of the transient branch of `processSlope`: a rising
edge is a value above the 0.5 threshold with the stored previous trigger
low; the new trigger level is always stored, and the envelope is started
(active, rising, phase 0) only when the slope is not already active. -/
noncomputable def transientGuard (triggerIn : ℝ) (s : Slope) : Slope :=
  let trigger : Bool := if triggerIn > 0.5 then true else false
  let triggerRise := trigger && !s.prevTrigger
  let s1 : Slope := { s with prevTrigger := trigger }
  if triggerRise && !s1.active then
    { s1 with active := true, rising := true, phase := 0 }
  else s1

/-- Phase advance of the transient branch of `processSlope`: while
rising, add `speed / riseTime` and top out at 1 (turning to falling);
while falling, subtract `speed / fallTime` and bottom out at 0 (going
inactive); inactive slopes do not move. -/
noncomputable def transientAdvance (speed riseTime fallTime : ℝ) (s : Slope) : Slope :=
  if s.active then
    if s.rising then
      let phase1 := s.phase + speed / riseTime
      if phase1 ≥ 1 then { s with phase := 1, rising := false }
      else { s with phase := phase1 }
    else
      let phase1 := s.phase - speed / fallTime
      if phase1 ≤ 0 then { s with phase := 0, active := false }
      else { s with phase := phase1 }
  else s

/-- The complete transient-mode branch of `processSlope` in the second
slope-generator source file: trigger handling followed by the phase
advance, sequentially on the same slope record. -/
noncomputable def processSlopeTransient (speed riseTime fallTime triggerIn : ℝ)
    (s : Slope) : Slope :=
  transientAdvance speed riseTime fallTime (transientGuard triggerIn s)

end JustFriendsV2

namespace ThreeSisters

/-- Source `calculateFreqCoeff` of the filter-bank processor: the SVF
frequency coefficient `2·sin(π·fc/fs)`, clamped into `[0.0001, 1.99]` for
stability. -/
noncomputable def calculateFreqCoeff (sampleRate cutoffHz : ℝ) : ℝ :=
  let omega := Real.pi * cutoffHz / sampleRate
  let f := 2 * Real.sin omega
  min 1.99 (max 0.0001 f)

end ThreeSisters

namespace Drums

/-- Block-rate parameters of `drums-processor.js` (`kickPitch`,
`kickDecay`, `snarePitch`, `snareDecay` AudioParams plus the global
`sampleRate`). -/
structure Params where
  kickPitch : ℝ
  kickDecay : ℝ
  snarePitch : ℝ
  snareDecay : ℝ
  sampleRate : ℝ

/-- Persistent per-voice state of `drums-processor.js`. -/
structure State where
  kPhase : ℝ
  kEnvVal : ℝ
  sPhase : ℝ
  sEnvVal : ℝ
  hpX1 : ℝ
  hpY1 : ℝ

/-- Kick envelope decay factor `exp(-1 / (sampleRate * kickDecay))`. -/
noncomputable def kEnvCoeff (p : Params) : ℝ :=
  Real.exp (-1 / (p.sampleRate * p.kickDecay))

/-- Snare envelope decay factor `exp(-1 / (sampleRate * snareDecay))`. -/
noncomputable def sEnvCoeff (p : Params) : ℝ :=
  Real.exp (-1 / (p.sampleRate * p.snareDecay))

/-- One-pole highpass coefficient for the fixed 1400 Hz snare filter. -/
noncomputable def hpAlpha (p : Params) : ℝ :=
  let rc := 1 / (1400 * (2 * Real.pi))
  let dt := 1 / p.sampleRate
  rc / (rc + dt)

/-- Trigger test `kickTrig && kickTrig[i] > 0.5`: an absent channel
(`none`) short-circuits to no trigger. -/
noncomputable def trigHigh (o : Option (ℕ → ℝ)) (i : ℕ) : Bool :=
  match o with
  | none => false
  | some f => if f i > 0.5 then true else false

/-- A one-sample trigger pulse at sample 0 (scenario of the kick-decay
property). -/
noncomputable def kickTrigAtZero : ℕ → ℝ := fun i => if i = 0 then 1 else 0

/-- One sample of the `process` loop of `drums-processor.js` (the white
noise source is passed in as an input stream): kick and snare envelopes
with pitch sweep, snare tone/noise mix through the one-pole highpass, and
the final `tanh` soft clip, written identically to both channels. -/
noncomputable def step (p : Params) (kickTrig snareTrig : Option (ℕ → ℝ))
    (noise : ℕ → ℝ) (i : ℕ) (st : State) : State × ℝ :=
  let kEnv0 := if trigHigh kickTrig i then 1 else st.kEnvVal
  let kPhase0 := if trigHigh kickTrig i then 0 else st.kPhase
  let kEnv1 := kEnv0 * kEnvCoeff p
  let currentKickFreq := p.kickPitch + p.kickPitch * 4 * kEnv1
  let kPhase1 := kPhase0 + currentKickFreq / p.sampleRate
  let kPhase2 := if kPhase1 > 1 then kPhase1 - 1 else kPhase1
  let kickOsc := Real.sin (kPhase2 * (2 * Real.pi))
  let kickOutSignal := kickOsc * kEnv1 * kEnv1
  let sEnv0 := if trigHigh snareTrig i then 1 else st.sEnvVal
  let sPhase0 := if trigHigh snareTrig i then 0 else st.sPhase
  let sEnv1 := sEnv0 * sEnvCoeff p
  let currentSnareFreq := p.snarePitch + p.snarePitch * 0.5 * sEnv1
  let sPhase1 := sPhase0 + currentSnareFreq / p.sampleRate
  let sPhase2 := if sPhase1 > 1 then sPhase1 - 1 else sPhase1
  let snareTone := Real.sin (sPhase2 * (2 * Real.pi))
  let snareRaw := (noise i * 0.8 + snareTone * 0.2) * sEnv1
  let hpY := hpAlpha p * (st.hpY1 + snareRaw - st.hpX1)
  let mix := kickOutSignal * 0.8 + hpY * 0.6
  let distorted := Real.tanh (mix * 1.5)
  (⟨kPhase2, kEnv1, sPhase2, sEnv1, snareRaw, hpY⟩, distorted)

/-- Sequential processing of `n` samples starting at sample index `i`,
returning the final state and the list of output samples. -/
noncomputable def blockFrom (p : Params) (kickTrig snareTrig : Option (ℕ → ℝ))
    (noise : ℕ → ℝ) : ℕ → ℕ → State → State × List ℝ
  | _, 0, st => (st, [])
  | i, n + 1, st =>
    let r := step p kickTrig snareTrig noise i st
    let rest := blockFrom p kickTrig snareTrig noise (i + 1) n r.1
    (rest.1, r.2 :: rest.2)

end Drums

namespace DrumSeq

/-- Persistent state of `drum-sequencer-processor.js` (patterns are
mutated only by out-of-band messages and passed separately). -/
structure State where
  prevStepPulse : ℚ
  prevResetPulse : ℚ
  samplesSinceLastPulse : ℚ
  samplesPerDrumStep : ℚ
  nextStepAt : ℚ
  currentStep : ℕ
  clockDivision : ℕ

/-- Source `detectPulse`: rising edge through the 0.5 threshold
(`prevSample < threshold && currentSample >= threshold`). -/
def detectPulse (currentSample prevSample : ℚ) : Bool :=
  if prevSample < 1 / 2 ∧ 1 / 2 ≤ currentSample then true else false

/-- Source `advanceDrumStep`: cursor advance modulo 16. -/
def advanceDrumStep (s : ℕ) : ℕ := (s + 1) % 16

/-- One sample of the `process` loop of `drum-sequencer-processor.js`:
reset-pulse branch first, then the step-clock branch (both may fire in the
same sample), then the internal subdivision, then the trigger outputs read
from the patterns at the final cursor. -/
def step (kickPattern snarePattern hatPattern : ℕ → ℚ) (newDivision : ℕ)
    (resetIn stepIn : Option ℚ) (st : State) : State × (ℚ × ℚ × ℚ) :=
  let st1 : State := { st with samplesSinceLastPulse := st.samplesSinceLastPulse + 1 }
  let resetFired :=
    match resetIn with
    | none => false
    | some r => detectPulse r st1.prevResetPulse
  let st2 : State :=
    match resetIn with
    | none => st1
    | some r =>
      if detectPulse r st1.prevResetPulse then
        { st1 with currentStep := 0, samplesSinceLastPulse := 0, nextStepAt := 0,
                   prevResetPulse := r }
      else { st1 with prevResetPulse := r }
  let stepFired :=
    match stepIn with
    | none => false
    | some s => detectPulse s st2.prevStepPulse
  let st3 : State :=
    match stepIn with
    | none => st2
    | some s =>
      if detectPulse s st2.prevStepPulse then
        let spd :=
          if 0 < st2.samplesSinceLastPulse then st2.samplesSinceLastPulse / (newDivision : ℚ)
          else st2.samplesPerDrumStep
        { st2 with samplesPerDrumStep := spd, clockDivision := newDivision,
                   samplesSinceLastPulse := 0, nextStepAt := spd,
                   currentStep := advanceDrumStep st2.currentStep, prevStepPulse := s }
      else { st2 with prevStepPulse := s }
  let pulseFired := resetFired || stepFired
  let subFired :=
    if pulseFired = false ∧ 0 < st3.samplesPerDrumStep ∧
        st3.nextStepAt ≤ st3.samplesSinceLastPulse then true else false
  let st4 : State :=
    if subFired then
      { st3 with currentStep := advanceDrumStep st3.currentStep,
                 nextStepAt := st3.nextStepAt + st3.samplesPerDrumStep }
    else st3
  let shouldTrigger := pulseFired || subFired
  let outs :=
    if shouldTrigger then
      (kickPattern st4.currentStep, snarePattern st4.currentStep, hatPattern st4.currentStep)
    else (0, 0, 0)
  (st4, outs)

end DrumSeq

namespace Quantizer

theorem mget_eq (mask : NoteMask) (n : ℕ) (h : n < 12) : mget mask n = mask ⟨n, h⟩ := by
  simp [mget, Nat.mod_eq_of_lt h]

theorem searchFrom_lt (mask : NoteMask) (idx : ℕ) (frac : ℚ) :
    ∀ ds : List ℕ, searchFrom mask idx frac ds < 12 := by
  intro ds
  induction ds with
  | nil => simp [searchFrom]
  | cons d ds ih =>
    simp only [searchFrom]
    split
    · split
      · split <;> exact Nat.mod_lt _ (by norm_num)
      · exact Nat.mod_lt _ (by norm_num)
    · split
      · exact Nat.mod_lt _ (by norm_num)
      · exact ih

theorem searchFrom_spec (mask : NoteMask) (idx : ℕ) (frac : ℚ) :
    ∀ ds : List ℕ, mget mask (searchFrom mask idx frac ds) = true ∨
      (searchFrom mask idx frac ds = 0 ∧
        ∀ d ∈ ds, mget mask ((idx + d) % 12) = false ∧
          mget mask ((idx + 12 - d) % 12) = false) := by
  intro ds
  induction ds with
  | nil => right; exact ⟨rfl, by simp⟩
  | cons d ds ih =>
    simp only [searchFrom]
    by_cases hu : mget mask ((idx + d) % 12) = true
    · rw [if_pos hu]
      by_cases hd : mget mask ((idx + 12 - d) % 12) = true
      · rw [if_pos hd]; left; split <;> assumption
      · rw [if_neg hd]; left; exact hu
    · rw [if_neg hu]
      by_cases hd : mget mask ((idx + 12 - d) % 12) = true
      · rw [if_pos hd]; left; exact hd
      · rw [if_neg hd]
        rcases ih with hA | ⟨h0, hall⟩
        · left; exact hA
        · right
          refine ⟨h0, ?_⟩
          intro e he
          rcases List.mem_cons.mp he with rfl | hmem
          · exact ⟨Bool.eq_false_iff.mpr hu, Bool.eq_false_iff.mpr hd⟩
          · exact hall e hmem

theorem findCore_lt (mask : NoteMask) (idx : ℕ) (frac : ℚ) (h : idx < 12) :
    findCore mask idx frac < 12 := by
  unfold findCore
  split
  · exact h
  · exact searchFrom_lt mask idx frac distances

theorem findCore_allowed (mask : NoteMask) (idx : ℕ) (frac : ℚ) (h : idx < 12)
    (j : Fin 12) (hj : mask j = true) :
    mget mask (findCore mask idx frac) = true := by
  unfold findCore
  by_cases h0 : mget mask idx = true
  · rw [if_pos h0]; exact h0
  · rw [if_neg h0]
    rcases searchFrom_spec mask idx frac distances with hA | ⟨_, hall⟩
    · exact hA
    · exfalso
      have hcov : ∀ a b : Fin 12, ∃ d : Fin 12, ((a : ℕ) + (d : ℕ)) % 12 = (b : ℕ) := by decide
      obtain ⟨d, hd⟩ := hcov ⟨idx, h⟩ j
      have hsplit : ∀ e : Fin 12, (e : ℕ) = 0 ∨ (e : ℕ) ∈ distances := by decide
      rcases hsplit d with h0d | hmem
      · rw [h0d, Nat.add_zero, Nat.mod_eq_of_lt h] at hd
        apply h0
        rw [mget_eq mask idx h]
        have hfin : (⟨idx, h⟩ : Fin 12) = j := Fin.ext hd
        rw [hfin]; exact hj
      · have hfalse := (hall (d : ℕ) hmem).1
        rw [hd, mget_eq mask (j : ℕ) j.isLt, Fin.eta] at hfalse
        rw [hfalse] at hj
        exact Bool.noConfusion hj

theorem findCore_none (mask : NoteMask) (idx : ℕ) (frac : ℚ)
    (hall : ∀ j : Fin 12, mask j = false) : findCore mask idx frac = 0 := by
  have hm : ∀ n, mget mask n = false := fun n => hall _
  have hs : ∀ ds, searchFrom mask idx frac ds = 0 := by
    intro ds
    induction ds with
    | nil => rfl
    | cons d ds ih =>
      simp only [searchFrom]
      rw [if_neg (by simp [hm]), if_neg (by simp [hm])]
      exact ih
  unfold findCore
  rw [if_neg (by simp [hm])]
  exact hs distances

theorem emod_twelve_toNat_lt (z : ℤ) : (z % 12).toNat < 12 := by
  have h1 : 0 ≤ z % 12 := Int.emod_nonneg _ (by norm_num)
  have h2 : z % 12 < 12 := Int.emod_lt_of_pos _ (by norm_num)
  omega

/-- Reassembled lattice points re-decompose exactly: octave and semitone
position of `(q·12 + n)/12` are `q` and `n`. -/
theorem reconstruct (q : ℤ) (n : ℕ) (hn : n < 12) :
    ⌊(((q : ℚ) * 12 + (n : ℚ)) / 12) * 12 / 12⌋ = q ∧
      (((q : ℚ) * 12 + (n : ℚ)) / 12) * 12 - (q : ℚ) * 12 = (n : ℚ) := by
  have harith : (((q : ℚ) * 12 + (n : ℚ)) / 12) * 12 = (q : ℚ) * 12 + (n : ℚ) := by
    ring
  constructor
  · rw [harith]
    have h2 : ((q : ℚ) * 12 + (n : ℚ)) / 12 = (q : ℚ) + (n : ℚ) / 12 := by ring
    rw [h2, Int.floor_int_add]
    have h3 : ⌊(n : ℚ) / 12⌋ = 0 := by
      rw [Int.floor_eq_zero_iff]
      constructor
      · positivity
      · rw [div_lt_one (by norm_num)]
        exact_mod_cast hn
    rw [h3, add_zero]
  · rw [harith]; ring

theorem findNearestAllowedNote_lt (mask : NoteMask) (s : ℚ) :
    findNearestAllowedNote mask s < 12 :=
  findCore_lt mask _ _ (emod_twelve_toNat_lt _)

/-- On an integer semitone position `n < 12` whose pitch class is allowed,
the primary search returns `n` itself. -/
theorem findNearestAllowedNote_natCast (mask : NoteMask) (n : ℕ) (hn : n < 12)
    (hmem : mget mask n = true) : findNearestAllowedNote mask (n : ℚ) = n := by
  unfold findNearestAllowedNote
  have h1 : ⌊((n : ℕ) : ℚ)⌋ = (n : ℤ) := Int.floor_natCast n
  have h2 : ((n : ℤ) % 12).toNat = n := by omega
  rw [h1, h2]
  unfold findCore
  rw [if_pos hmem]

theorem quantizeVoltage_idem_primary (mask : NoteMask) (v : ℚ) :
    quantizeVoltage mask (quantizeVoltage mask v) = quantizeVoltage mask v := by
  simp only [quantizeVoltage]
  set q : ℤ := ⌊v * 12 / 12⌋ with hq
  set n : ℕ := findNearestAllowedNote mask (v * 12 - (q : ℚ) * 12) with hndef
  have hn : n < 12 := findNearestAllowedNote_lt mask _
  obtain ⟨hfloor, hsem⟩ := reconstruct q n hn
  rw [hfloor, hsem]
  by_cases hmask : ∃ j : Fin 12, mask j = true
  · obtain ⟨j, hj⟩ := hmask
    have hallow : mget mask n = true := by
      rw [hndef]
      exact findCore_allowed mask _ _ (emod_twelve_toNat_lt _) j hj
    rw [findNearestAllowedNote_natCast mask n hn hallow]
  · push_neg at hmask
    have hall : ∀ j : Fin 12, mask j = false := by
      intro j
      exact Bool.eq_false_iff.mpr (hmask j)
    have hn0 : n = 0 := by rw [hndef]; exact findCore_none mask _ _ hall
    have h2 : findNearestAllowedNote mask ((n : ℕ) : ℚ) = 0 := by
      unfold findNearestAllowedNote
      exact findCore_none mask _ _ hall
    rw [h2, hn0]

end Quantizer

namespace QuantizerV2

open Quantizer (mget findCore searchFrom distances)

/-- Source invariant used to discharge the recursion fuel: the semitone
position `noteFloat - octave·12` is never negative in exact arithmetic. -/
theorem semis_nonneg (x : ℚ) : 0 ≤ x - (⌊x / 12⌋ : ℚ) * 12 := by
  have h := Int.floor_le (x / 12)
  have h2 := mul_le_mul_of_nonneg_right h (by norm_num : (0 : ℚ) ≤ 12)
  rw [div_mul_cancel₀ _ (by norm_num : (12 : ℚ) ≠ 0)] at h2
  linarith

/-- Unfolding of the fueled embedding: the negative-semitone branch is
dead, so one unit of fuel realises the source body. -/
theorem quantizeVoltage_eq (mask : Quantizer.NoteMask) (v : ℚ) :
    quantizeVoltage mask v =
      ((⌊v * 12 / 12⌋ : ℚ) * 12 +
        (findNearestAllowedNote mask (v * 12 - (⌊v * 12 / 12⌋ : ℚ) * 12) : ℚ)) / 12 := by
  unfold quantizeVoltage quantizeVoltageAux
  rw [if_neg (not_lt.mpr (semis_nonneg (v * 12)))]

theorem findNearestV2_lt (mask : Quantizer.NoteMask) (s : ℚ) :
    findNearestAllowedNote mask s < 12 :=
  Quantizer.findCore_lt mask _ _ (Quantizer.emod_twelve_toNat_lt _)

/-- On an integer semitone position `n < 12` whose pitch class is allowed,
the rounding-based search also returns `n` itself. -/
theorem findNearestV2_natCast (mask : Quantizer.NoteMask) (n : ℕ) (hn : n < 12)
    (hmem : mget mask n = true) : findNearestAllowedNote mask (n : ℚ) = n := by
  unfold findNearestAllowedNote
  have h1 : round ((n : ℕ) : ℚ) = (n : ℤ) := round_natCast n
  have h2 : ((n : ℤ) % 12).toNat = n := by omega
  rw [h1, h2]
  unfold Quantizer.findCore
  rw [if_pos hmem]

theorem quantizeVoltage_idem_v2 (mask : Quantizer.NoteMask) (v : ℚ) :
    quantizeVoltage mask (quantizeVoltage mask v) = quantizeVoltage mask v := by
  rw [quantizeVoltage_eq mask v]
  set q : ℤ := ⌊v * 12 / 12⌋ with hq
  set n : ℕ := findNearestAllowedNote mask (v * 12 - (q : ℚ) * 12) with hndef
  have hn : n < 12 := findNearestV2_lt mask _
  rw [quantizeVoltage_eq mask _]
  obtain ⟨hfloor, hsem⟩ := Quantizer.reconstruct q n hn
  rw [hfloor, hsem]
  by_cases hmask : ∃ j : Fin 12, mask j = true
  · obtain ⟨j, hj⟩ := hmask
    have hallow : mget mask n = true := by
      rw [hndef]
      exact Quantizer.findCore_allowed mask _ _ (Quantizer.emod_twelve_toNat_lt _) j hj
    rw [findNearestV2_natCast mask n hn hallow]
  · push_neg at hmask
    have hall : ∀ j : Fin 12, mask j = false := by
      intro j
      exact Bool.eq_false_iff.mpr (hmask j)
    have hn0 : n = 0 := by rw [hndef]; exact Quantizer.findCore_none mask _ _ hall
    have h2 : findNearestAllowedNote mask ((n : ℕ) : ℚ) = 0 := by
      unfold findNearestAllowedNote
      exact Quantizer.findCore_none mask _ _ hall
    rw [h2, hn0]

end QuantizerV2

section IntoneClaims

open JustFriends JustFriendsV2

/-- Claim C3: for every slope channel index in 2..6, the INTONE
frequency-ratio function (in both slope-generator source variants) is
exactly the index at the overtone extreme (intone = 1), exactly its
reciprocal at the undertone extreme (intone = 0), and exactly 1 at the
center (intone = 1/2); channel 1 returns ratio 1 for every intone value. -/
theorem intone_ratio_extremes (i : ℕ) (h2 : 2 ≤ i) (h6 : i ≤ 6) :
    (getIntoneRatio i 1 = (i : ℚ) ∧
      getIntoneRatio i 0 = 1 / (i : ℚ) ∧
      getIntoneRatio i (1 / 2) = 1 ∧
      calculateIntoneRatio i 1 = (i : ℚ) ∧
      calculateIntoneRatio i 0 = 1 / (i : ℚ) ∧
      calculateIntoneRatio i (1 / 2) = 1) ∧
    (∀ t : ℚ, getIntoneRatio 1 t = 1 ∧ calculateIntoneRatio 1 t = 1) := by
  refine ⟨⟨?_, ?_, ?_, ?_, ?_, ?_⟩, ?_⟩
  · simp only [getIntoneRatio]
    rw [if_neg (by rw [abs_lt]; norm_num), if_pos (by norm_num)]
    ring
  · simp only [getIntoneRatio]
    rw [if_neg (by rw [abs_lt]; norm_num), if_neg (by norm_num)]
    have h : (1 : ℚ) + ((i : ℚ) - 1) * ((1 / 2 - 0) * 2) = (i : ℚ) := by ring
    rw [h]
  · simp only [getIntoneRatio]
    rw [if_pos (by rw [abs_lt]; norm_num)]
  · simp only [calculateIntoneRatio]
    rw [if_neg (by omega), if_pos (by norm_num)]
    ring
  · simp only [calculateIntoneRatio]
    rw [if_neg (by omega), if_neg (by norm_num)]
    have h : (1 : ℚ) + -((0 - 1 / 2) * 2) * ((i : ℚ) - 1) = (i : ℚ) := by ring
    rw [h]
  · simp only [calculateIntoneRatio]
    rw [if_neg (by omega), if_pos (by norm_num)]
    norm_num
  · intro t
    constructor
    · simp only [getIntoneRatio]
      split_ifs <;> push_cast <;> ring_nf <;> norm_num
    · simp only [calculateIntoneRatio]
      simp

/-- Witness for C3 at channel 3. -/
theorem intone_ratio_extremes_witness :
    (2 ≤ 3 ∧ 3 ≤ 6) ∧
    ((getIntoneRatio 3 1 = (3 : ℚ) ∧
        getIntoneRatio 3 0 = 1 / (3 : ℚ) ∧
        getIntoneRatio 3 (1 / 2) = 1 ∧
        calculateIntoneRatio 3 1 = (3 : ℚ) ∧
        calculateIntoneRatio 3 0 = 1 / (3 : ℚ) ∧
        calculateIntoneRatio 3 (1 / 2) = 1) ∧
      (∀ t : ℚ, getIntoneRatio 1 t = 1 ∧ calculateIntoneRatio 1 t = 1)) :=
  ⟨⟨by norm_num, by norm_num⟩, intone_ratio_extremes 3 (by norm_num) (by norm_num)⟩

end IntoneClaims

section CurveClaims

/-- Claim C4: at the center value curve = 0.5 the CURVE waveshaping of
both slope-generator source variants is the identity on every linear
phase value in [0, 1]. -/
theorem applyCurve_identity_at_center (x : ℝ) (h0 : 0 ≤ x) (h1 : x ≤ 1) :
    JustFriends.applyCurve x (1 / 2) = x ∧ JustFriendsV2.applyCurve x (1 / 2) = x := by
  constructor
  · simp only [JustFriends.applyCurve]
    rw [if_pos (by rw [abs_lt]; norm_num)]
  · simp only [JustFriendsV2.applyCurve]
    rw [if_neg (by norm_num)]
    rw [if_neg (by norm_num : ¬ ((1 / 2 - 1 / 2 : ℝ) * 2 > 0.99))]
    have h : (1 : ℝ) + (1 / 2 - 1 / 2) * 2 * 2 = 1 := by norm_num
    rw [h, Real.rpow_one]

/-- Witness for C4 at the phase value 1/2. -/
theorem applyCurve_identity_at_center_witness :
    ((0 : ℝ) ≤ 1 / 2 ∧ (1 / 2 : ℝ) ≤ 1) ∧
    (JustFriends.applyCurve (1 / 2) (1 / 2) = 1 / 2 ∧
      JustFriendsV2.applyCurve (1 / 2) (1 / 2) = 1 / 2) :=
  ⟨⟨by norm_num, by norm_num⟩,
    applyCurve_identity_at_center (1 / 2) (by norm_num) (by norm_num)⟩

end CurveClaims

section FreqCoeffClaims

/-- Claim C5: for every cutoff in [20, 20000] Hz and sample rate in
[44100, 96000], the filter bank's SVF frequency coefficient
(`2·sin(π·fc/fs)` clamped to `[0.0001, 1.99]`) lies strictly inside
(0, 2). -/
theorem freqCoeff_strictly_inside (fc fs : ℝ) (hfc1 : 20 ≤ fc) (hfc2 : fc ≤ 20000)
    (hfs1 : 44100 ≤ fs) (hfs2 : fs ≤ 96000) :
    0 < ThreeSisters.calculateFreqCoeff fs fc ∧ ThreeSisters.calculateFreqCoeff fs fc < 2 := by
  simp only [ThreeSisters.calculateFreqCoeff]
  constructor
  · exact lt_of_lt_of_le (by norm_num)
      (le_min (by norm_num) (le_max_left _ _))
  · exact lt_of_le_of_lt (min_le_left _ _) (by norm_num)

/-- Witness for C5 at 440 Hz cutoff, 44100 Hz sample rate. -/
theorem freqCoeff_strictly_inside_witness :
    ((20 : ℝ) ≤ 440 ∧ (440 : ℝ) ≤ 20000 ∧ (44100 : ℝ) ≤ 44100 ∧ (44100 : ℝ) ≤ 96000) ∧
    (0 < ThreeSisters.calculateFreqCoeff 44100 440 ∧
      ThreeSisters.calculateFreqCoeff 44100 440 < 2) :=
  ⟨⟨by norm_num, by norm_num, by norm_num, by norm_num⟩,
    freqCoeff_strictly_inside 440 44100 (by norm_num) (by norm_num) (by norm_num) (by norm_num)⟩

end FreqCoeffClaims

section TriggerClaims

/-- The phase advance of the transient branch neither reads nor writes
the stored previous-trigger flag. -/
theorem transientAdvance_prevTrigger (speed riseTime fallTime : ℝ)
    (s : JustFriendsV2.Slope) (b : Bool) :
    JustFriendsV2.transientAdvance speed riseTime fallTime { s with prevTrigger := b } =
      { JustFriendsV2.transientAdvance speed riseTime fallTime s with prevTrigger := b } := by
  rcases s with ⟨ph, ac, ri, pt⟩
  simp only [JustFriendsV2.transientAdvance]
  split_ifs <;> rfl

/-- Claim C8: in transient mode a trigger rising edge moves an idle
channel to rising with phase reset to 0 and is ignored while the channel
is rising or falling, in both cited implementations: `handleTrigger`
(mode 0) of `just-friends-processor.js`, and the trigger guard of the
transient branch of `processSlope` in the second slope-generator source
file, where a rising edge on an active slope changes nothing but the
stored previous-trigger flag — so the full branch then behaves exactly
as it would with no trigger at all. -/
theorem transient_trigger_guard (phase : ℝ) (s : JustFriends.SlopeState)
    (h : s = JustFriends.SlopeState.rising ∨ s = JustFriends.SlopeState.falling)
    (speed riseTime fallTime t : ℝ) (ht : t > 0.5)
    (sl : JustFriendsV2.Slope) (hp : sl.prevTrigger = false) :
    JustFriends.handleTrigger 0 true JustFriends.SlopeState.idle phase =
      (JustFriends.SlopeState.rising, 0) ∧
    JustFriends.handleTrigger 0 true s phase = (s, phase) ∧
    (sl.active = false →
      JustFriendsV2.transientGuard t sl =
        { sl with active := true, rising := true, phase := 0, prevTrigger := true }) ∧
    (sl.active = true →
      JustFriendsV2.transientGuard t sl = { sl with prevTrigger := true }) ∧
    (sl.active = true →
      JustFriendsV2.processSlopeTransient speed riseTime fallTime t sl =
        { JustFriendsV2.transientAdvance speed riseTime fallTime sl with
            prevTrigger := true }) := by
  have htrig : (if t > 0.5 then true else false) = true := if_pos ht
  rcases sl with ⟨ph, ac, ri, pt⟩
  change pt = false at hp
  subst hp
  refine ⟨rfl, ?_, ?_, ?_, ?_⟩
  · rcases h with rfl | rfl <;> rfl
  · intro hac
    change ac = false at hac
    subst hac
    simp [JustFriendsV2.transientGuard, htrig]
  · intro hac
    change ac = true at hac
    subst hac
    simp [JustFriendsV2.transientGuard, htrig]
  · intro hac
    change ac = true at hac
    subst hac
    have hg : JustFriendsV2.transientGuard t ⟨ph, true, ri, false⟩ =
        (⟨ph, true, ri, true⟩ : JustFriendsV2.Slope) := by
      simp [JustFriendsV2.transientGuard, htrig]
    simp only [JustFriendsV2.processSlopeTransient, hg]
    exact transientAdvance_prevTrigger speed riseTime fallTime ⟨ph, true, ri, false⟩ true

/-- Witness for C8: a rising channel at phase 0.37 for the first
implementation, and an active slope at phase 1/4 hit by a full-scale
trigger for the second. -/
theorem transient_trigger_guard_witness :
    ((JustFriends.SlopeState.rising = JustFriends.SlopeState.rising ∨
        JustFriends.SlopeState.rising = JustFriends.SlopeState.falling) ∧
      (1 : ℝ) > 0.5 ∧
      (JustFriendsV2.Slope.mk (1 / 4) true true false).prevTrigger = false) ∧
    (JustFriends.handleTrigger 0 true JustFriends.SlopeState.idle (37 / 100) =
        (JustFriends.SlopeState.rising, 0) ∧
      JustFriends.handleTrigger 0 true JustFriends.SlopeState.rising (37 / 100) =
        (JustFriends.SlopeState.rising, 37 / 100) ∧
      ((JustFriendsV2.Slope.mk (1 / 4) true true false).active = false →
        JustFriendsV2.transientGuard 1 (JustFriendsV2.Slope.mk (1 / 4) true true false) =
          { JustFriendsV2.Slope.mk (1 / 4) true true false with
              active := true, rising := true, phase := 0, prevTrigger := true }) ∧
      ((JustFriendsV2.Slope.mk (1 / 4) true true false).active = true →
        JustFriendsV2.transientGuard 1 (JustFriendsV2.Slope.mk (1 / 4) true true false) =
          { JustFriendsV2.Slope.mk (1 / 4) true true false with prevTrigger := true }) ∧
      ((JustFriendsV2.Slope.mk (1 / 4) true true false).active = true →
        JustFriendsV2.processSlopeTransient (1 / 100) (1 / 2) (1 / 2) 1
            (JustFriendsV2.Slope.mk (1 / 4) true true false) =
          { JustFriendsV2.transientAdvance (1 / 100) (1 / 2) (1 / 2)
              (JustFriendsV2.Slope.mk (1 / 4) true true false) with prevTrigger := true })) :=
  ⟨⟨Or.inl rfl, by norm_num, rfl⟩,
    transient_trigger_guard (37 / 100) JustFriends.SlopeState.rising (Or.inl rfl)
      (1 / 100) (1 / 2) (1 / 2) 1 (by norm_num)
      (JustFriendsV2.Slope.mk (1 / 4) true true false) rfl⟩

end TriggerClaims

section DrumsClaims

/-- Hyperbolic tangent is strictly inside (-1, 1) on the reals. -/
theorem tanh_strict_bounds (x : ℝ) : -1 < Real.tanh x ∧ Real.tanh x < 1 := by
  have hc := Real.cosh_pos x
  have h1 : Real.sinh x < Real.cosh x := by
    nlinarith [Real.cosh_sub_sinh x, Real.exp_pos (-x)]
  have h2 : -Real.cosh x < Real.sinh x := by
    nlinarith [Real.cosh_add_sinh x, Real.exp_pos x]
  constructor
  · rw [Real.tanh_eq_sinh_div_cosh, lt_div_iff hc]
    linarith
  · rw [Real.tanh_eq_sinh_div_cosh, div_lt_one hc]
    exact h1

/-- Claim C10: every output sample of the drum synthesizer lies strictly
inside (-1, 1), for every parameter set, trigger input, noise value and
internal state, because the kick+snare mix passes through tanh. -/
theorem drums_output_strictly_bounded (p : Drums.Params)
    (kickTrig snareTrig : Option (ℕ → ℝ)) (noise : ℕ → ℝ) (i : ℕ) (st : Drums.State) :
    -1 < (Drums.step p kickTrig snareTrig noise i st).2 ∧
      (Drums.step p kickTrig snareTrig noise i st).2 < 1 := by
  simp only [Drums.step]
  exact tanh_strict_bounds _

/-- Projection of one drums step onto the kick envelope: retrigger to 1
when the trigger is high, then multiply by the decay coefficient. -/
theorem step_kEnvVal (p : Drums.Params) (kickTrig snareTrig : Option (ℕ → ℝ))
    (noise : ℕ → ℝ) (i : ℕ) (st : Drums.State) :
    ((Drums.step p kickTrig snareTrig noise i st).1).kEnvVal =
      (if Drums.trigHigh kickTrig i then 1 else st.kEnvVal) * Drums.kEnvCoeff p := rfl

/-- With the kick trigger high only at sample 0, every sample processed
from an index ≥ 1 onward multiplies the kick envelope by the decay
coefficient. -/
theorem blockFrom_kEnv_decay (p : Drums.Params) (snareTrig : Option (ℕ → ℝ))
    (noise : ℕ → ℝ) (n : ℕ) :
    ∀ (i : ℕ), 1 ≤ i → ∀ st : Drums.State,
      ((Drums.blockFrom p (some Drums.kickTrigAtZero) snareTrig noise i n st).1).kEnvVal =
        st.kEnvVal * Drums.kEnvCoeff p ^ n := by
  induction n with
  | zero =>
    intro i hi st
    simp [Drums.blockFrom]
  | succ n ih =>
    intro i hi st
    simp only [Drums.blockFrom]
    rw [ih (i + 1) (by omega)]
    rw [step_kEnvVal]
    have htf : Drums.trigHigh (some Drums.kickTrigAtZero) i = false := by
      have h0 : Drums.kickTrigAtZero i = 0 := by
        simp only [Drums.kickTrigAtZero]
        rw [if_neg (by omega : ¬ i = 0)]
      simp only [Drums.trigHigh, h0]
      rw [if_neg (by norm_num : ¬ ((0 : ℝ) > 0.5))]
    rw [htf]
    simp only [Bool.false_eq_true, if_false]
    rw [pow_succ]
    ring

/-- Claim C7: a kick trigger at sample 0 sets the envelope to 1.0 and each
processed sample multiplies it by `exp(-1/(sampleRate·kickDecay))`; with
kickDecay = 0.5 s at 44100 Hz the envelope entering sample 22050 = 44100·0.5
is exactly `exp(-1)` times the retriggered value 1.0. -/
theorem kick_env_exp_decay_half_second (kp sp sd : ℝ) (snareTrig : Option (ℕ → ℝ))
    (noise : ℕ → ℝ) (st : Drums.State) :
    ((Drums.blockFrom
        { kickPitch := kp, kickDecay := 1 / 2, snarePitch := sp, snareDecay := sd,
          sampleRate := 44100 }
        (some Drums.kickTrigAtZero) snareTrig noise 0 22050 st).1).kEnvVal =
      Real.exp (-1) := by
  have hsucc : ∀ (p : Drums.Params) (kt snt : Option (ℕ → ℝ)) (noise : ℕ → ℝ)
      (i n : ℕ) (st : Drums.State),
      (Drums.blockFrom p kt snt noise i (n + 1) st).1 =
        (Drums.blockFrom p kt snt noise (i + 1) n (Drums.step p kt snt noise i st).1).1 :=
    fun _ _ _ _ _ _ _ => rfl
  rw [show (22050 : ℕ) = 22049 + 1 from rfl, hsucc]
  rw [blockFrom_kEnv_decay _ _ _ 22049 1 (by omega)]
  rw [step_kEnvVal]
  have htf : Drums.trigHigh (some Drums.kickTrigAtZero) 0 = true := by
    have h0 : Drums.kickTrigAtZero 0 = 1 := by
      simp [Drums.kickTrigAtZero]
    simp only [Drums.trigHigh, h0]
    rw [if_pos (by norm_num : (1 : ℝ) > 0.5)]
  rw [htf]
  simp only [if_true]
  have hco : Drums.kEnvCoeff
      { kickPitch := kp, kickDecay := 1 / 2, snarePitch := sp, snareDecay := sd,
        sampleRate := (44100 : ℝ) } = Real.exp (-(1 / 22050)) := by
    simp only [Drums.kEnvCoeff]
    norm_num
  rw [hco, one_mul, ← pow_succ']
  rw [← Real.exp_nat_mul]
  congr 1
  push_cast
  norm_num

end DrumsClaims

section AbsentInputClaims

end AbsentInputClaims

section QuantizerClaims

/-- Claim C1 (evaluation at the failing input): with the chromatic mask
the primary quantizer returns `floor(v·12)/12`, not `round(v·12)/12` — at
v = 1/16 V (0.75 semitones) it yields 0 V although the nearest semitone is
1/12 V; the cited example v = 0.37 V lands on 4/12 = 1/3 V only because
there floor and round agree.  The second source variant rounds but wraps a
rounded 12 back to pitch class 0 of the same octave, so at v = 0.99 V it
also yields 0 V instead of the nearest lattice point 1 V. -/
theorem quantizer_truncates_not_rounds :
    Quantizer.quantizeVoltage Quantizer.chromaticMask (1 / 16) = 0 ∧
    (round ((1 / 16 : ℚ) * 12) : ℚ) / 12 = 1 / 12 ∧
    Quantizer.quantizeVoltage Quantizer.chromaticMask (37 / 100) = 1 / 3 ∧
    QuantizerV2.quantizeVoltage Quantizer.chromaticMask (99 / 100) = 0 ∧
    (round ((99 / 100 : ℚ) * 12) : ℚ) / 12 = 1 := by
  refine ⟨?_, ?_, ?_, ?_, ?_⟩
  · simp only [Quantizer.quantizeVoltage, Quantizer.findNearestAllowedNote,
      Quantizer.findCore, Quantizer.mget, Quantizer.chromaticMask]
    norm_num
  · rw [round_eq]
    norm_num
  · simp only [Quantizer.quantizeVoltage, Quantizer.findNearestAllowedNote,
      Quantizer.findCore, Quantizer.mget, Quantizer.chromaticMask]
    norm_num
    simp
    norm_num
  · rw [QuantizerV2.quantizeVoltage_eq]
    simp only [QuantizerV2.findNearestAllowedNote, Quantizer.findCore, Quantizer.mget,
      Quantizer.chromaticMask]
    rw [round_eq]
    norm_num
  · rw [round_eq]
    norm_num

/-- Claim C6: the quantization map of both quantizer source variants is
idempotent for every note mask and every input voltage. -/
theorem quantizeVoltage_idempotent (mask : Quantizer.NoteMask) (v : ℚ) :
    Quantizer.quantizeVoltage mask (Quantizer.quantizeVoltage mask v) =
      Quantizer.quantizeVoltage mask v ∧
    QuantizerV2.quantizeVoltage mask (QuantizerV2.quantizeVoltage mask v) =
      QuantizerV2.quantizeVoltage mask v :=
  ⟨Quantizer.quantizeVoltage_idem_primary mask v, QuantizerV2.quantizeVoltage_idem_v2 mask v⟩

end QuantizerClaims

section DrumSeqClaims

/-- Claim C2 (evaluation at the failing input): when a reset pulse and a
step-clock pulse arrive in the same sample (both inputs rise 0 → 1), the
reset branch zeroes the cursor but the step branch still advances it, so
the sample ends with the cursor at step 1 and the trigger outputs read the
pattern at step 1 (here 0), not the pattern at step 0 (here 1). -/
theorem drum_seq_reset_step_same_sample :
    ((DrumSeq.step (fun j => if j = 0 then 1 else 0) (fun _ => 0) (fun _ => 0) 4
        (some 1) (some 1) ⟨0, 0, 0, 0, 0, 0, 4⟩).1).currentStep = 1 ∧
    (DrumSeq.step (fun j => if j = 0 then 1 else 0) (fun _ => 0) (fun _ => 0) 4
        (some 1) (some 1) ⟨0, 0, 0, 0, 0, 0, 4⟩).2.1 = 0 ∧
    (fun j : ℕ => if j = 0 then (1 : ℚ) else 0) 0 = 1 := by
  refine ⟨?_, ?_, by norm_num⟩ <;>
  · simp only [DrumSeq.step, DrumSeq.detectPulse, DrumSeq.advanceDrumStep]
    norm_num

end DrumSeqClaims
